import Mathlib

/-!
Shallow embedding of the HDR+ burst-processing pipeline front end
(`src/main.py` of yaanggny/HDR-Plus-Python) together with a spec-modelled
Aligner, and theorems settling the frozen claims about it.

The embedding covers:
* `decode_pattern` — decoding a raw CFA pattern into an integer tag 1–4;
* `load_images` — burst directory loading: the `*.dng` glob check, the
  sort of paths by the integer following `load_N` in the filename, the
  parallel decode of every frame, the at-least-2-frames assertion and the
  extraction of the camera metadata from the first sorted path;
* `HDR` — the align → merge → finish orchestration, with the three stage
  functions kept symbolic (their sources live in separate modules);
* a model of the order-preserving worker pool (`multiprocessing.Pool.imap`)
  used to decode frames;
* a spec-modelled hierarchical aligner (pyramids, per-tile mean-absolute
  difference search with smallest-magnitude tie-breaking).

Machine integers are modelled as `Int`/`Nat` (no overflow is reachable in
the modelled paths), Python floats as `Rat` where only the data flow of the
values matters, raised exceptions as an `Except` error result.
-/

/-! ## Python string helpers

`str.split(sep)` and `int(str)` are re-implemented structurally so that
they evaluate inside the kernel.  `pySplit` matches Python `str.split`
with a non-empty separator: split on each non-overlapping occurrence,
left to right, keeping empty pieces. -/

/-- Is `sep` a prefix of `s`? (Boolean, structural.) -/
def isPre : List Char → List Char → Bool
  | [], _ => true
  | _ :: _, [] => false
  | a :: as, b :: bs => a = b && isPre as bs

/-- Fuel-driven splitting worker: `acc` holds the current piece reversed. -/
def splitFuel (sep : List Char) : Nat → List Char → List Char → List (List Char)
  | 0, s, acc => [acc.reverse ++ s]
  | _ + 1, [], acc => [acc.reverse]
  | fuel + 1, c :: rest, acc =>
    if isPre sep (c :: rest) then
      acc.reverse :: splitFuel sep fuel (List.drop (sep.length - 1) rest) []
    else
      splitFuel sep fuel rest (c :: acc)

/-- Python `s.split(sep)` for a non-empty separator. -/
def pySplit (s sep : List Char) : List (List Char) :=
  splitFuel sep (s.length + 1) s []

/-- Is `c` an ASCII decimal digit? -/
def isDigitCh (c : Char) : Bool := decide ('0' ≤ c) && decide (c ≤ '9')

/-- Accumulate a decimal number; `none` when a non-digit appears. -/
def digitsToNat (acc : Nat) : List Char → Option Nat
  | [] => some acc
  | c :: cs => if isDigitCh c then digitsToNat (acc * 10 + (c.toNat - 48)) cs else none

/-- Python `int(s)` on a plain (unpadded) literal: optional sign followed by
at least one digit; `none` models the `ValueError` raised otherwise. -/
def pyInt : List Char → Option Int
  | [] => none
  | '-' :: rest =>
    if rest = [] then none else (digitsToNat 0 rest).map (fun n => -(n : Int))
  | '+' :: rest =>
    if rest = [] then none else (digitsToNat 0 rest).map (fun n => (n : Int))
  | s => (digitsToNat 0 s).map (fun n => (n : Int))

/-! ## decode_pattern (src/main.py lines 56–75) -/

/-- One cell of the raw CFA pattern: 0 ↦ R, 1 ↦ G, 2 ↦ B, everything else ↦ G. -/
def cellChar (v : Int) : Char :=
  if v = 0 then 'R' else if v = 1 then 'G' else if v = 2 then 'B' else 'G'

/-- The string spelled by the pattern, row by row. -/
def patternStr (pattern : List (List Int)) : List Char :=
  (pattern.map (fun row => row.map cellChar)).flatten

/-- `decode_pattern`: integer tag 1–4 (1 RGGB, 2 GRBG, 3 BGGR, 4 RGBG);
every string other than the first three named ones falls through to 4. -/
def decode_pattern (pattern : List (List Int)) : Int :=
  if patternStr pattern = "RGGB".data then 1
  else if patternStr pattern = "GRBG".data then 2
  else if patternStr pattern = "BGGR".data then 3
  else 4

/-! ## load_images (src/main.py lines 87–138) -/

/-- The fields of a raw file that `load_images` reads through rawpy. -/
structure RawFile where
  name : String
  image : List (List Int)
  camera_whitebalance : List Rat
  raw_pattern : List (List Int)
  color_matrix : List (List Rat)
  black_level_per_channel : List Int
  white_level : Int
  deriving DecidableEq

/-- Placeholder raw file used as the default of `List.headD`/`List.getD`
(never reached on the modelled paths). -/
def emptyRaw : RawFile :=
  { name := "", image := [], camera_whitebalance := [], raw_pattern := []
    color_matrix := [], black_level_per_channel := [], white_level := 0 }

/-- Exceptions that escape `load_images`. -/
inductive LoadError where
  | valueError (msg : String)
  | assertionError (msg : String)
  deriving DecidableEq

/-- The sort key of a burst path: `int(x.split('load_N')[-1].split('.')[0])`,
`none` when `int()` would raise. -/
def sortKey (name : List Char) : Option Int :=
  pyInt ((pySplit ((pySplit name "load_N".data).getLastD []) ".".data).headD [])

/-- Total version of the key, used only after all keys parsed. -/
def fileKey (f : RawFile) : Int := (sortKey f.name.data).getD 0

/-- The burst paths sorted by `fileKey`.  Python `list.sort` is a stable
sort; a stable sort's output is unique, so the stable insertion sort is an
exact model. -/
def sortedFiles (files : List RawFile) : List RawFile :=
  List.insertionSort (fun a b => fileKey a ≤ fileKey b) files

/-- What `load_images` returns on success (ref_img, the rawpy postprocess
preview, is outside the modelled pipeline data). -/
structure BurstResult where
  buffer : List (List (List Int))
  wb_r : Rat
  wb_g0 : Rat
  wb_g1 : Rat
  wb_b : Rat
  black_point : Int
  white_point : Int
  cfa_pattern : Int
  ccm : List (List Rat)
  deriving DecidableEq

/-- Observable pipeline events, in program order: entering `load_images`,
decoding one frame in the worker pool, reading the reference metadata,
and the three stage calls of `HDR`. -/
inductive Ev where
  | enterLoad
  | decodeFrame (name : String)
  | readMeta (name : String)
  | alignEv
  | mergeEv
  | finishEv
  deriving DecidableEq

/-- The reference file: first element of the sorted path list (`paths[0]`). -/
def refFile (files : List RawFile) : RawFile :=
  (sortedFiles files).headD emptyRaw

/-- Events of a successful (or past-the-pool) `load_images` run. -/
def loadEvs (files : List RawFile) : List Ev :=
  Ev.enterLoad :: (sortedFiles files).map (fun f => Ev.decodeFrame f.name)

/-- The metadata+buffer record built from the sorted burst, exactly as in
src/main.py lines 114–135: white balance R and B divided by G, both green
gains 1, black level from channel 0, CFA tag decoded from the reference
pattern. -/
def loadResult (files : List RawFile) : BurstResult :=
  { buffer := (sortedFiles files).map RawFile.image
    wb_r := (refFile files).camera_whitebalance.getD 0 0 /
      (refFile files).camera_whitebalance.getD 1 0
    wb_g0 := 1
    wb_g1 := 1
    wb_b := (refFile files).camera_whitebalance.getD 2 0 /
      (refFile files).camera_whitebalance.getD 1 0
    black_point := (refFile files).black_level_per_channel.getD 0 0
    white_point := (refFile files).white_level
    cfa_pattern := decode_pattern (refFile files).raw_pattern
    ccm := (refFile files).color_matrix }

/-- `load_images`: the glob-emptiness check, the sort (whose key function
runs `int()` on every path and may raise), the pool decode of every frame,
the ≥ 2 assertion, and the metadata read from the first sorted path.
Returns the event trace alongside the result. -/
def load_images (files : List RawFile) : List Ev × Except LoadError BurstResult :=
  if files.isEmpty then
    ([Ev.enterLoad], Except.error (LoadError.valueError "Burst format [*.dng] not recognized."))
  else if (files.all fun f => (sortKey f.name.data).isSome) = false then
    ([Ev.enterLoad], Except.error (LoadError.valueError "invalid literal for int()"))
  else if ((sortedFiles files).map RawFile.image).length < 2 then
    (loadEvs files, Except.error (LoadError.assertionError "Burst must consist of at least 2 images"))
  else
    (loadEvs files ++ [Ev.readMeta (refFile files).name], Except.ok (loadResult files))

/-! ## HDR (src/main.py lines 160–223)

The align, merge and finish stages live in separate modules; they are kept
symbolic, so the value computed by `HDR` records exactly which stage was
applied to which arguments. -/

/-- Symbolic stage applications, with the argument lists of
`align_images(images)`, `merge_images(images, alignment)` and
`finish_image(merged, width, height, black, white, wbR, wbG0, wbG1, wbB,
compression, gain, contrast, cfa, ccm)`. -/
inductive StageTerm where
  | alignS (images : List (List (List Int)))
  | mergeS (images : List (List (List Int))) (alignment : StageTerm)
  | finishS (merged : StageTerm) (width height : Nat) (black white : Int)
      (wbR wbG0 wbG1 wbB compression gain contrast : Rat)
      (cfa : Int) (ccm : List (List Rat))

/-- Width of the buffer (first dimension of frame 0). -/
def bufWidth (b : List (List (List Int))) : Nat := ((b.headD []).headD []).length

/-- Height of the buffer (second dimension of frame 0). -/
def bufHeight (b : List (List (List Int))) : Nat := (b.headD []).length

/-- `HDR`: load, assert the buffer holds at least one alternate frame, then
align → merge → finish, each stage fed the previous stage's output; any
load error is reported without any stage running. -/
def HDR (files : List RawFile) (compression gain contrast : Rat) :
    List Ev × Except LoadError StageTerm :=
  match load_images files with
  | (evs, Except.error e) => (evs, Except.error e)
  | (evs, Except.ok r) =>
    if r.buffer.length < 2 then
      (evs, Except.error (LoadError.assertionError "Must have at least one alternate image"))
    else
      (evs ++ [Ev.alignEv, Ev.mergeEv, Ev.finishEv],
       Except.ok (StageTerm.finishS (StageTerm.mergeS r.buffer (StageTerm.alignS r.buffer))
         (bufWidth r.buffer) (bufHeight r.buffer) r.black_point r.white_point
         r.wb_r r.wb_g0 r.wb_g1 r.wb_b compression gain contrast
         r.cfa_pattern r.ccm))

/-! ## The worker pool (src/main.py lines 106–110, 131–135)

`multiprocessing.Pool.imap(load_image, paths)` runs the decodes
concurrently but yields results in submission order.  A run of the pool is
modelled by the permutation in which the workers complete: completion
events carry their submission index, and the assembly step reads the
events back in index order — exactly what `imap`'s ordered iterator does.
The buffer-build loop (`result.sliced(2, index).copy_from(image)`) then
stores result `i` in slice `i`. -/

/-- Completion events of one pool run: the workers finish in the order
given by `schedule` (a permutation of the submission indices), each event
carrying its submission index and its result. -/
def poolEvents (f : RawFile → List (List Int)) (xs : List RawFile) (schedule : List Nat) :
    List (Nat × List (List Int)) :=
  schedule.map (fun i => (i, f (xs.getD i emptyRaw)))

/-- Ordered read-out of the completion events: slot `i` of the output gets
the result carrying submission index `i`. -/
def assembleInOrder (n : Nat) (events : List (Nat × List (List Int))) :
    List (Option (List (List Int))) :=
  (List.range n).map (fun i => (events.find? (fun e => e.1 = i)).map Prod.snd)

/-- One full `Pool.imap` run under completion order `schedule`. -/
def poolImap (f : RawFile → List (List Int)) (xs : List RawFile) (schedule : List Nat) :
    List (Option (List (List Int))) :=
  assembleInOrder xs.length (poolEvents f xs schedule)

/-! ## Spec-modelled Aligner

`Modelled from the spec:` the sources of `align_images` (align.py) are not
part of src/, so the Aligner of spec §4.1–4.2 is modelled here from the
spec's words: box-average pyramids (coarsest first), per-tile search of a
bounded displacement window minimizing the mean absolute difference,
ties broken by the smallest displacement magnitude and then by raster
order, the chosen coarse offset upscaled into the search center of the
next finer level.  Edge samples are clamped to the nearest valid index
(spec §4.1), so every window access is defined. -/

/-- A single mosaic frame: width, height and a sample function. -/
structure Frame where
  w : Nat
  h : Nat
  data : Int → Int → Rat

/-- Clamp an index into `[0, n-1]`. -/
def clampIdx (n : Nat) (x : Int) : Int := max 0 (min x ((n : Int) - 1))

/-- Sample a frame with clamped coordinates. -/
def sample (F : Frame) (x y : Int) : Rat := F.data (clampIdx F.w x) (clampIdx F.h y)

/-- One 2× box-average downsampling step. -/
def downsample (F : Frame) : Frame :=
  { w := F.w / 2
    h := F.h / 2
    data := fun x y =>
      (sample F (2 * x) (2 * y) + sample F (2 * x + 1) (2 * y) +
       sample F (2 * x) (2 * y + 1) + sample F (2 * x + 1) (2 * y + 1)) / 4 }

/-- The `L`-level pyramid of a frame, coarsest level first, the original
frame last. -/
def pyramid (F : Frame) : Nat → List Frame
  | 0 => []
  | L + 1 => pyramid (downsample F) L ++ [F]

/-- Mean absolute difference (up to the constant tile-area factor) between
the tile of `ref` at tile index `t` and the tile of `alt` displaced by `d`. -/
def tileMAD (ref alt : Frame) (T : Nat) (t d : Int × Int) : Rat :=
  ∑ i ∈ Finset.range T, ∑ j ∈ Finset.range T,
    |sample ref (t.1 * T + i) (t.2 * T + j) -
      sample alt (t.1 * T + i + d.1) (t.2 * T + j + d.2)|

/-- Squared magnitude of a displacement, the tie-break measure. -/
def dispMag (d : Int × Int) : Int := d.1 * d.1 + d.2 * d.2

/-- Is candidate `c` strictly preferred to `b`: smaller score, or equal
score and strictly smaller magnitude?  (Raster order among equal-magnitude
candidates is realized by keeping the earlier candidate on ties.) -/
def StrictPref (score : Int × Int → Rat) (c b : Int × Int) : Prop :=
  score c < score b ∨ (score c = score b ∧ dispMag c < dispMag b)

instance (score : Int × Int → Rat) (c b : Int × Int) : Decidable (StrictPref score c b) := by
  unfold StrictPref
  infer_instance

/-- Keep the better of the best-so-far `b` and the next candidate `c`. -/
def pickBetter (score : Int × Int → Rat) (b c : Int × Int) : Int × Int :=
  if StrictPref score c b then c else b

/-- Select the minimizing displacement from a candidate list, scanned in
raster order. -/
def selectBest (score : Int × Int → Rat) : List (Int × Int) → Int × Int
  | [] => (0, 0)
  | c :: rest => rest.foldl (pickBetter score) c

/-- The raster-ordered search window of radius `r` centered at `c`. -/
def window (c : Int × Int) (r : Nat) : List (Int × Int) :=
  (List.range (2 * r + 1)).flatMap (fun j : Nat =>
    (List.range (2 * r + 1)).map (fun i : Nat =>
      (c.1 - (r : Int) + (i : Int), c.2 - (r : Int) + (j : Int))))

/-- Alignment of one pyramid level: every tile searches the window of
radius `r` centered at its parent tile's offset upscaled to this level's
resolution. -/
def alignLevel (ref alt : Frame) (T r : Nat) (parent : Int × Int → Int × Int) :
    Int × Int → Int × Int :=
  fun t =>
    let p := parent (t.1 / 2, t.2 / 2)
    selectBest (tileMAD ref alt T t) (window (2 * p.1, 2 * p.2) r)

/-- Coarse-to-fine recursion over the (reference level, other level,
search radius) triples, threading each level's offset field into the next
as parent; the coarsest level starts from the zero field. -/
def alignLevels (T : Nat) : List ((Frame × Frame) × Nat) →
    (Int × Int → Int × Int) → Int × Int → Int × Int
  | [], parent => parent
  | ((f, g), r) :: finer, parent => alignLevels T finer (alignLevel f g T r parent)

/-- `align`: the offset field of `other` against `ref` — pyramids of both
frames with matching level count `L`, tile size `T`, per-level search
radii `radii` (coarsest first). -/
def align (ref other : Frame) (L T : Nat) (radii : List Nat) : Int × Int → Int × Int :=
  alignLevels T (((pyramid ref L).zip (pyramid other L)).zip radii) (fun _ => (0, 0))

/-! ## Concrete bursts used to instantiate the theorems -/

/-- A raw file whose CFA pattern spells RGGB (tag 1). -/
def demoFileA : RawFile :=
  { name := "burst/load_N0.dng"
    image := [[1, 2], [3, 4]]
    camera_whitebalance := [2, 1, 3]
    raw_pattern := [[0, 1], [1, 2]]
    color_matrix := [[1, 0, 0], [0, 1, 0], [0, 0, 1]]
    black_level_per_channel := [5, 5, 5, 5]
    white_level := 1023 }

/-- A raw file whose CFA pattern spells BGGR (tag 3), so its layout tag
disagrees with `demoFileA`. -/
def demoFileB : RawFile :=
  { name := "burst/load_N1.dng"
    image := [[5, 6], [7, 8]]
    camera_whitebalance := [2, 1, 3]
    raw_pattern := [[2, 1], [1, 0]]
    color_matrix := [[1, 0, 0], [0, 1, 0], [0, 0, 1]]
    black_level_per_channel := [5, 5, 5, 5]
    white_level := 1023 }

/-- A two-frame burst, listed out of order so that the sort matters. -/
def demoBurst2 : List RawFile := [demoFileB, demoFileA]

/-- A burst directory holding exactly one raw frame. -/
def demoBurst1 : List RawFile := [demoFileA]

/-! ## Helper lemmas -/

/-- Inversion of a successful `load_images` run: none of the three guards
fired, the trace is the decode trace plus the metadata read, and the result
is `loadResult`. -/
theorem load_ok_inv {files : List RawFile} {evs : List Ev} {r : BurstResult}
    (h : load_images files = (evs, Except.ok r)) :
    files.isEmpty = false
    ∧ (files.all fun f => (sortKey f.name.data).isSome) = true
    ∧ 2 ≤ (sortedFiles files).length
    ∧ evs = loadEvs files ++ [Ev.readMeta (refFile files).name]
    ∧ r = loadResult files := by
  unfold load_images at h
  split_ifs at h with h1 h2 h3
  · exact absurd h (by simp)
  · exact absurd h (by simp)
  · exact absurd h (by simp)
  · rw [Prod.mk.injEq, Except.ok.injEq] at h
    refine ⟨by simpa using h1,
      by revert h2; cases files.all fun f => (sortKey f.name.data).isSome <;> simp,
      ?_, h.1.symm, h.2.symm⟩
    rw [List.length_map] at h3
    omega

/-- The sorted burst is a permutation of the glob result, sorted by the
integer key extracted from the filename. -/
theorem sortedFiles_perm_and_sorted (files : List RawFile) :
    (sortedFiles files).Perm files
    ∧ (sortedFiles files).Sorted (fun a b => fileKey a ≤ fileKey b) := by
  constructor
  · exact List.perm_insertionSort _ files
  · have ht : IsTotal RawFile (fun a b => fileKey a ≤ fileKey b) :=
      ⟨fun a b => le_total (fileKey a) (fileKey b)⟩
    have htr : IsTrans RawFile (fun a b => fileKey a ≤ fileKey b) :=
      ⟨fun a b c hab hbc => le_trans hab hbc⟩
    exact List.sorted_insertionSort _ files

/-! ## C8 — totality of decode_pattern -/

/-- C8: `decode_pattern` is total: every pattern is decoded to a tag in
{1, 2, 3, 4}; every cell value other than 0, 1, 2 is decoded as a green
position; and every decoded string other than RGGB, GRBG, BGGR yields
tag 4 (RGBG). -/
theorem decode_pattern_total (pattern : List (List Int)) (v : Int) :
    decode_pattern pattern ∈ ({1, 2, 3, 4} : Set Int)
    ∧ (v ≠ 0 → v ≠ 1 → v ≠ 2 → cellChar v = 'G')
    ∧ (patternStr pattern ≠ "RGGB".data → patternStr pattern ≠ "GRBG".data →
        patternStr pattern ≠ "BGGR".data → decode_pattern pattern = 4) := by
  refine ⟨?_, ?_, ?_⟩
  · unfold decode_pattern
    split_ifs <;> simp
  · intro h0 h1 h2
    unfold cellChar
    simp [h0, h1, h2]
  · intro h1 h2 h3
    unfold decode_pattern
    simp [h1, h2, h3]

/-- Witness for C8 at the pattern [[9, 1], [1, 2]] (spelling GGGB) and the
cell value 9. -/
theorem decode_pattern_total_witness :
    decode_pattern [[9, 1], [1, 2]] ∈ ({1, 2, 3, 4} : Set Int)
    ∧ cellChar 9 = 'G'
    ∧ decode_pattern [[9, 1], [1, 2]] = 4 :=
  ⟨(decode_pattern_total [[9, 1], [1, 2]] 9).1,
   (decode_pattern_total [[9, 1], [1, 2]] 9).2.1 (by decide) (by decide) (by decide),
   (decode_pattern_total [[9, 1], [1, 2]] 9).2.2 (by decide) (by decide) (by decide)⟩

/-! ## C3 — unrecognized layout tags do not raise -/

/-- C3 counterexample: the pattern [[1, 2], [0, 1]] spells GBRG — none of
the four named 2×2 layouts — yet `decode_pattern` raises nothing and
returns the valid tag 4. -/
theorem unrecognized_pattern_returns_tag :
    patternStr [[1, 2], [0, 1]] = "GBRG".data
    ∧ decode_pattern [[1, 2], [0, 1]] = 4
    ∧ decode_pattern [[1, 2], [0, 1]] ∈ ({1, 2, 3, 4} : Set Int) := by
  refine ⟨by decide, by decide, by decide⟩

/-- C3 amended: decoding never fails; any pattern whose decoded string is
not RGGB, GRBG or BGGR — unrecognized layouts included — is mapped to the
catch-all tag 4 (RGBG) and the pipeline proceeds with it. -/
theorem decode_pattern_defaults_to_rgbg (pattern : List (List Int))
    (h1 : patternStr pattern ≠ "RGGB".data)
    (h2 : patternStr pattern ≠ "GRBG".data)
    (h3 : patternStr pattern ≠ "BGGR".data) :
    decode_pattern pattern = 4 := by
  unfold decode_pattern
  simp [h1, h2, h3]

/-- Witness for the amended C3 at the GBRG-spelling pattern. -/
theorem decode_pattern_defaults_to_rgbg_witness :
    decode_pattern [[1, 2], [0, 1]] = 4 :=
  decode_pattern_defaults_to_rgbg [[1, 2], [0, 1]] (by decide) (by decide) (by decide)

/-! ## C9 — empty burst directory -/

/-- C9: with no `*.dng` files, `load_images` raises the ValueError
"Burst format [*.dng] not recognized." at once: the pipeline trace holds
only the entry event — no frame was decoded — and no stage runs. -/
theorem empty_burst_valueerror_before_decode (compression gain contrast : Rat) :
    HDR [] compression gain contrast =
      ([Ev.enterLoad],
       Except.error (LoadError.valueError "Burst format [*.dng] not recognized.")) := rfl

/-! ## C1 — a one-frame burst fails before alignment -/

/-- C1: a burst directory with exactly one raw frame never reaches the
align stage: `HDR` ends in an error whose trace carries no align event,
and whenever the filename key parses (every loadable burst's filenames
do), the error is precisely the assertion "Burst must consist of at least
2 images", raised inside `load_images` before `align_images` is called. -/
theorem burst_of_one_fails_before_alignment (files : List RawFile)
    (compression gain contrast : Rat) (h : files.length = 1) :
    Ev.alignEv ∉ (HDR files compression gain contrast).1
    ∧ (∃ e, (HDR files compression gain contrast).2 = Except.error e)
    ∧ ((files.all fun f => (sortKey f.name.data).isSome) = true →
        (HDR files compression gain contrast).2 =
          Except.error (LoadError.assertionError "Burst must consist of at least 2 images")) := by
  obtain ⟨f, rfl⟩ := List.length_eq_one.mp h
  by_cases hk : ([f].all fun x => (sortKey x.name.data).isSome) = true
  · have hsorted : sortedFiles [f] = [f] := rfl
    have hload : load_images [f] =
        (loadEvs [f],
         Except.error (LoadError.assertionError "Burst must consist of at least 2 images")) := by
      unfold load_images
      rw [if_neg (by simp), if_neg (by simp [hk]), if_pos (by rw [hsorted]; simp)]
    have hHDR : HDR [f] compression gain contrast =
        (loadEvs [f],
         Except.error (LoadError.assertionError "Burst must consist of at least 2 images")) := by
      unfold HDR
      rw [hload]
    rw [hHDR]
    exact ⟨by simp [loadEvs], ⟨_, rfl⟩, fun _ => rfl⟩
  · have hload : load_images [f] =
        ([Ev.enterLoad], Except.error (LoadError.valueError "invalid literal for int()")) := by
      unfold load_images
      rw [if_neg (by simp), if_pos (by revert hk; cases [f].all fun x => (sortKey x.name.data).isSome <;> simp)]
    have hHDR : HDR [f] compression gain contrast =
        ([Ev.enterLoad], Except.error (LoadError.valueError "invalid literal for int()")) := by
      unfold HDR
      rw [hload]
    rw [hHDR]
    exact ⟨by simp, ⟨_, rfl⟩, fun hk2 => absurd hk2 hk⟩

/-- Witness for C1 at the one-frame burst `demoBurst1`. -/
theorem burst_of_one_fails_before_alignment_witness :
    Ev.alignEv ∉ (HDR demoBurst1 1 2 3).1
    ∧ (∃ e, (HDR demoBurst1 1 2 3).2 = Except.error e)
    ∧ ((demoBurst1.all fun f => (sortKey f.name.data).isSome) = true →
        (HDR demoBurst1 1 2 3).2 =
          Except.error (LoadError.assertionError "Burst must consist of at least 2 images")) :=
  burst_of_one_fails_before_alignment demoBurst1 1 2 3 (by decide)

/-! ## C2 — inconsistent layout tags are not detected -/

/-- C2 counterexample: `demoBurst2` holds two frames whose CFA patterns
decode to different tags (RGGB vs BGGR), yet `load_images` succeeds —
no InvalidBurst is raised for inconsistent filter-layout tags. -/
theorem mismatched_tags_load_ok :
    (load_images demoBurst2).2 = Except.ok (loadResult demoBurst2)
    ∧ decode_pattern demoFileA.raw_pattern = 1
    ∧ decode_pattern demoFileB.raw_pattern = 3 :=
  ⟨rfl, by decide, by decide⟩

/-- C2 amended: loading never compares filter layouts across frames — the
burst's CFA tag is decoded solely from the reference (first sorted) frame,
and a burst with mismatched tags loads successfully carrying that tag. -/
theorem cfa_tag_from_reference_only (files : List RawFile) (evs : List Ev)
    (r : BurstResult) (h : load_images files = (evs, Except.ok r)) :
    r.cfa_pattern = decode_pattern (refFile files).raw_pattern := by
  rcases load_ok_inv h with ⟨-, -, -, -, hr⟩
  rw [hr]
  exact rfl

/-- Witness for the amended C2 at the mismatched two-frame burst. -/
theorem cfa_tag_from_reference_only_witness :
    (loadResult demoBurst2).cfa_pattern = decode_pattern (refFile demoBurst2).raw_pattern :=
  cfa_tag_from_reference_only demoBurst2
    (loadEvs demoBurst2 ++ [Ev.readMeta (refFile demoBurst2).name])
    (loadResult demoBurst2) rfl

/-! ## C4 — stage order and data flow of HDR -/

/-- C4: on every successful load, `HDR` runs align, then merge, then
finish, in that order; `align_images` receives the loaded buffer,
`merge_images` the buffer with the alignment, `finish_image` the merged
mosaic with the camera metadata and the three tone parameters. -/
theorem hdr_stage_order_and_data_flow (files : List RawFile) (evs : List Ev)
    (r : BurstResult) (compression gain contrast : Rat)
    (h : load_images files = (evs, Except.ok r)) :
    HDR files compression gain contrast =
      (evs ++ [Ev.alignEv, Ev.mergeEv, Ev.finishEv],
       Except.ok (StageTerm.finishS (StageTerm.mergeS r.buffer (StageTerm.alignS r.buffer))
         (bufWidth r.buffer) (bufHeight r.buffer) r.black_point r.white_point
         r.wb_r r.wb_g0 r.wb_g1 r.wb_b compression gain contrast
         r.cfa_pattern r.ccm)) := by
  have hlen : ¬ r.buffer.length < 2 := by
    rcases load_ok_inv h with ⟨-, -, hlen, -, hr⟩
    rw [hr]
    simp only [loadResult, List.length_map]
    omega
  unfold HDR
  rw [h]
  simp [hlen]

/-- Witness for C4 at the two-frame burst `demoBurst2`. -/
theorem hdr_stage_order_and_data_flow_witness :
    HDR demoBurst2 1 2 3 =
      ((loadEvs demoBurst2 ++ [Ev.readMeta (refFile demoBurst2).name]) ++
        [Ev.alignEv, Ev.mergeEv, Ev.finishEv],
       Except.ok (StageTerm.finishS
         (StageTerm.mergeS (loadResult demoBurst2).buffer
           (StageTerm.alignS (loadResult demoBurst2).buffer))
         (bufWidth (loadResult demoBurst2).buffer) (bufHeight (loadResult demoBurst2).buffer)
         (loadResult demoBurst2).black_point (loadResult demoBurst2).white_point
         (loadResult demoBurst2).wb_r (loadResult demoBurst2).wb_g0
         (loadResult demoBurst2).wb_g1 (loadResult demoBurst2).wb_b 1 2 3
         (loadResult demoBurst2).cfa_pattern (loadResult demoBurst2).ccm)) :=
  hdr_stage_order_and_data_flow demoBurst2
    (loadEvs demoBurst2 ++ [Ev.readMeta (refFile demoBurst2).name])
    (loadResult demoBurst2) 1 2 3 rfl

/-! ## C5 — reference frame and path ordering -/

/-- C5: the loaded burst is ordered by sorting the paths by the integer
following load_N in the filename (the output is a permutation of the glob
result, sorted by that key); frame 0 of the buffer is the reference frame,
and it is the sole source of every per-burst metadata field. -/
theorem reference_frame_and_sort_order (files : List RawFile) (evs : List Ev)
    (r : BurstResult) (h : load_images files = (evs, Except.ok r)) :
    (sortedFiles files).Perm files
    ∧ (sortedFiles files).Sorted (fun a b => fileKey a ≤ fileKey b)
    ∧ r.buffer.headD [] = (refFile files).image
    ∧ r.wb_r = (refFile files).camera_whitebalance.getD 0 0 /
        (refFile files).camera_whitebalance.getD 1 0
    ∧ r.wb_g0 = 1 ∧ r.wb_g1 = 1
    ∧ r.wb_b = (refFile files).camera_whitebalance.getD 2 0 /
        (refFile files).camera_whitebalance.getD 1 0
    ∧ r.black_point = (refFile files).black_level_per_channel.getD 0 0
    ∧ r.white_point = (refFile files).white_level
    ∧ r.cfa_pattern = decode_pattern (refFile files).raw_pattern
    ∧ r.ccm = (refFile files).color_matrix := by
  rcases load_ok_inv h with ⟨-, -, hlen, -, hr⟩
  rcases sortedFiles_perm_and_sorted files with ⟨hperm, hsort⟩
  subst hr
  refine ⟨hperm, hsort, ?_, rfl, rfl, rfl, rfl, rfl, rfl, rfl, rfl⟩
  rcases hs : sortedFiles files with - | ⟨hd, tl⟩
  · rw [hs] at hlen
    simp at hlen
  · simp [loadResult, refFile, hs]

/-- Witness for C5 at the two-frame burst `demoBurst2`. -/
theorem reference_frame_and_sort_order_witness :
    (sortedFiles demoBurst2).Perm demoBurst2
    ∧ (sortedFiles demoBurst2).Sorted (fun a b => fileKey a ≤ fileKey b)
    ∧ (loadResult demoBurst2).buffer.headD [] = (refFile demoBurst2).image
    ∧ (loadResult demoBurst2).wb_r = (refFile demoBurst2).camera_whitebalance.getD 0 0 /
        (refFile demoBurst2).camera_whitebalance.getD 1 0
    ∧ (loadResult demoBurst2).wb_g0 = 1 ∧ (loadResult demoBurst2).wb_g1 = 1
    ∧ (loadResult demoBurst2).wb_b = (refFile demoBurst2).camera_whitebalance.getD 2 0 /
        (refFile demoBurst2).camera_whitebalance.getD 1 0
    ∧ (loadResult demoBurst2).black_point = (refFile demoBurst2).black_level_per_channel.getD 0 0
    ∧ (loadResult demoBurst2).white_point = (refFile demoBurst2).white_level
    ∧ (loadResult demoBurst2).cfa_pattern = decode_pattern (refFile demoBurst2).raw_pattern
    ∧ (loadResult demoBurst2).ccm = (refFile demoBurst2).color_matrix :=
  reference_frame_and_sort_order demoBurst2
    (loadEvs demoBurst2 ++ [Ev.readMeta (refFile demoBurst2).name])
    (loadResult demoBurst2) rfl

/-! ## C10 — white-balance gains and black level -/

/-- C10: both green gains returned by `load_images` are exactly 1, the R
and B gains are the camera R and B white-balance values divided by the
green value, and the black level is channel 0 of the per-channel black
levels — all read from the reference frame. -/
theorem green_gains_unity_black_from_channel0 (files : List RawFile) (evs : List Ev)
    (r : BurstResult) (h : load_images files = (evs, Except.ok r)) :
    r.wb_g0 = 1 ∧ r.wb_g1 = 1
    ∧ r.wb_r = (refFile files).camera_whitebalance.getD 0 0 /
        (refFile files).camera_whitebalance.getD 1 0
    ∧ r.wb_b = (refFile files).camera_whitebalance.getD 2 0 /
        (refFile files).camera_whitebalance.getD 1 0
    ∧ r.black_point = (refFile files).black_level_per_channel.getD 0 0 := by
  rcases load_ok_inv h with ⟨-, -, -, -, hr⟩
  subst hr
  exact ⟨rfl, rfl, rfl, rfl, rfl⟩

/-- Witness for C10 at the two-frame burst `demoBurst2`. -/
theorem green_gains_unity_black_from_channel0_witness :
    (loadResult demoBurst2).wb_g0 = 1 ∧ (loadResult demoBurst2).wb_g1 = 1
    ∧ (loadResult demoBurst2).wb_r = (refFile demoBurst2).camera_whitebalance.getD 0 0 /
        (refFile demoBurst2).camera_whitebalance.getD 1 0
    ∧ (loadResult demoBurst2).wb_b = (refFile demoBurst2).camera_whitebalance.getD 2 0 /
        (refFile demoBurst2).camera_whitebalance.getD 1 0
    ∧ (loadResult demoBurst2).black_point = (refFile demoBurst2).black_level_per_channel.getD 0 0 :=
  green_gains_unity_black_from_channel0 demoBurst2
    (loadEvs demoBurst2 ++ [Ev.readMeta (refFile demoBurst2).name])
    (loadResult demoBurst2) rfl

/-! ## C6 — the assembled buffer is schedule-independent -/

/-- Whatever permutation the workers complete in, the ordered read-out of
the pool equals the in-order map over the inputs. -/
theorem poolImap_ordered (f : RawFile → List (List Int)) (xs : List RawFile)
    (s : List Nat) (hs : s.Perm (List.range xs.length)) :
    poolImap f xs s = xs.map (fun x => some (f x)) := by
  have hfind : ∀ (t : List Nat) (i : Nat), i ∈ t →
      (poolEvents f xs t).find? (fun e => e.1 = i) =
        some (i, f (xs.getD i emptyRaw)) := by
    intro t
    induction t with
    | nil => intro i hi; cases hi
    | cons j u ih =>
      intro i hi
      by_cases hj : j = i
      · subst hj
        simp [poolEvents, List.find?]
      · have hiu : i ∈ u := by
          rcases List.mem_cons.mp hi with hji | hiu
          · exact absurd hji.symm hj
          · exact hiu
        have step : poolEvents f xs (j :: u) =
            (j, f (xs.getD j emptyRaw)) :: poolEvents f xs u := rfl
        rw [step, List.find?_cons_of_neg _ (by simpa using hj)]
        exact ih i hiu
  unfold poolImap assembleInOrder
  apply List.ext_getElem
  · simp
  · intro n hn1 hn2
    simp only [List.getElem_map, List.getElem_range]
    have hnlen : n < xs.length := by simpa using hn2
    rw [hfind s n (hs.mem_iff.mpr (List.mem_range.mpr hnlen))]
    simp [List.getD, List.getElem?_eq_getElem hnlen]

/-- C6: on every loaded burst, the assembled 3D buffer is a deterministic
function of the input files: two pool runs with different completion
schedules yield the same output, that output is exactly the loaded buffer,
and slice `i` of the buffer holds the frame at position `i` of the sorted
path list. -/
theorem buffer_assembly_schedule_independent (files : List RawFile) (evs : List Ev)
    (r : BurstResult) (s1 s2 : List Nat)
    (h : load_images files = (evs, Except.ok r))
    (h1 : s1.Perm (List.range (sortedFiles files).length))
    (h2 : s2.Perm (List.range (sortedFiles files).length)) :
    poolImap RawFile.image (sortedFiles files) s1 =
      poolImap RawFile.image (sortedFiles files) s2
    ∧ poolImap RawFile.image (sortedFiles files) s1 = r.buffer.map some
    ∧ r.buffer = (sortedFiles files).map RawFile.image := by
  rcases load_ok_inv h with ⟨-, -, -, -, hr⟩
  subst hr
  have e1 := poolImap_ordered RawFile.image (sortedFiles files) s1 h1
  have e2 := poolImap_ordered RawFile.image (sortedFiles files) s2 h2
  refine ⟨e1.trans e2.symm, ?_, rfl⟩
  rw [e1]
  simp [loadResult]

/-- Witness for C6 at `demoBurst2` with the two completion schedules
[1, 0] and [0, 1]. -/
theorem buffer_assembly_schedule_independent_witness :
    poolImap RawFile.image (sortedFiles demoBurst2) [1, 0] =
      poolImap RawFile.image (sortedFiles demoBurst2) [0, 1]
    ∧ poolImap RawFile.image (sortedFiles demoBurst2) [1, 0] =
        (loadResult demoBurst2).buffer.map some
    ∧ (loadResult demoBurst2).buffer = (sortedFiles demoBurst2).map RawFile.image :=
  buffer_assembly_schedule_independent demoBurst2
    (loadEvs demoBurst2 ++ [Ev.readMeta (refFile demoBurst2).name])
    (loadResult demoBurst2) [1, 0] [0, 1] rfl (by decide) (by decide)

/-! ## C7 — aligning a frame against itself gives the zero field -/

/-- Strict preference is asymmetric. -/
theorem strictPref_asymm {score : Int × Int → Rat} {a b : Int × Int}
    (h : StrictPref score a b) : ¬ StrictPref score b a := by
  rcases h with h | ⟨he, hm⟩
  · rintro (h2 | ⟨he2, -⟩)
    · exact absurd (h.trans h2) (lt_irrefl _)
    · rw [he2] at h
      exact lt_irrefl _ h
  · rintro (h2 | ⟨-, hm2⟩)
    · rw [he] at h2
      exact lt_irrefl _ h2
    · exact absurd (hm.trans hm2) (lt_irrefl _)

/-- Strict preference is irreflexive. -/
theorem strictPref_irrefl (score : Int × Int → Rat) (a : Int × Int) :
    ¬ StrictPref score a a := by
  rintro (h | ⟨-, hm⟩)
  · exact lt_irrefl _ h
  · exact lt_irrefl _ hm

/-- `pickBetter` returns one of its two arguments. -/
theorem pickBetter_cases (score : Int × Int → Rat) (b c : Int × Int) :
    pickBetter score b c = b ∨ pickBetter score b c = c := by
  unfold pickBetter
  split_ifs
  · right
    rfl
  · left
    rfl

/-- The raster fold keeps a candidate that is strictly preferred to every
other candidate in play. -/
theorem foldl_pickBetter_eq (score : Int × Int → Rat) (x : Int × Int) :
    ∀ (l : List (Int × Int)) (acc : Int × Int),
      (acc = x ∨ StrictPref score x acc) →
      (∀ y ∈ l, y = x ∨ StrictPref score x y) →
      x ∈ acc :: l →
      l.foldl (pickBetter score) acc = x := by
  intro l
  induction l with
  | nil =>
    intro acc _ _ hmem
    have : x = acc := by simpa using hmem
    rw [this]
    rfl
  | cons c t ih =>
    intro acc hacc hl hmem
    have hc : c = x ∨ StrictPref score x c := hl c (List.mem_cons_self c t)
    have ht : ∀ y ∈ t, y = x ∨ StrictPref score x y :=
      fun y hy => hl y (List.mem_cons_of_mem c hy)
    show t.foldl (pickBetter score) (pickBetter score acc c) = x
    rcases hacc with rfl | hpx
    · -- best so far already x: it survives c
      have hkeep : pickBetter score acc c = acc := by
        unfold pickBetter
        rcases hc with rfl | hpc
        · rw [if_neg (strictPref_irrefl score c)]
        · rw [if_neg (strictPref_asymm hpc)]
      rw [hkeep]
      exact ih acc (Or.inl rfl) ht (List.mem_cons_self acc _)
    · rcases hc with rfl | hpc
      · -- the next candidate is x: it replaces the best so far
        have htake : pickBetter score acc c = c := by
          unfold pickBetter
          rw [if_pos hpx]
        rw [htake]
        exact ih c (Or.inl rfl) ht (List.mem_cons_self c _)
      · -- neither is x: x is further down the list
        have hmem2 : x ∈ t := by
          rcases List.mem_cons.mp hmem with h1 | hmem1
          · exact absurd h1.symm (fun hax => strictPref_irrefl score x (hax ▸ hpx))
          · rcases List.mem_cons.mp hmem1 with h2 | h3
            · exact absurd h2.symm (fun hcx => strictPref_irrefl score x (hcx ▸ hpc))
            · exact h3
        have hinv : pickBetter score acc c = x ∨ StrictPref score x (pickBetter score acc c) := by
          rcases pickBetter_cases score acc c with he | he <;> rw [he]
          · exact Or.inr hpx
          · exact Or.inr hpc
        exact ih (pickBetter score acc c) hinv ht (List.mem_cons_of_mem _ hmem2)

/-- A candidate strictly preferred to every other one is selected. -/
theorem selectBest_eq_of_strict_min (score : Int × Int → Rat) (l : List (Int × Int))
    (x : Int × Int) (hx : x ∈ l) (hbest : ∀ y ∈ l, y = x ∨ StrictPref score x y) :
    selectBest score l = x := by
  cases l with
  | nil => cases hx
  | cons c rest =>
    show rest.foldl (pickBetter score) c = x
    exact foldl_pickBetter_eq score x rest c
      (hbest c (List.mem_cons_self c rest))
      (fun y hy => hbest y (List.mem_cons_of_mem c hy))
      hx

/-- The zero displacement lies in every window centered at the origin. -/
theorem zero_mem_window (r : Nat) : (0, 0) ∈ window (0, 0) r := by
  unfold window
  apply List.mem_flatMap.mpr
  have hr : r ∈ List.range (2 * r + 1) := List.mem_range.mpr (by omega)
  refine ⟨r, hr, List.mem_map.mpr ⟨r, hr, ?_⟩⟩
  simp

/-- With a zero-scoring origin and nonnegative scores everywhere, the
search selects the zero displacement: any other candidate either scores
worse or ties with a strictly larger magnitude. -/
theorem selectBest_window_zero (score : Int × Int → Rat) (r : Nat)
    (h0 : score (0, 0) = 0) (hnn : ∀ y, 0 ≤ score y) :
    selectBest score (window (0, 0) r) = (0, 0) := by
  apply selectBest_eq_of_strict_min score _ _ (zero_mem_window r)
  intro y _
  by_cases hy0 : y = (0, 0)
  · exact Or.inl hy0
  · right
    rcases lt_or_eq_of_le (hnn y) with hpos | heq0
    · exact Or.inl (by rw [h0]; exact hpos)
    · refine Or.inr ⟨by rw [h0, ← heq0], ?_⟩
      have hne : y.1 ≠ 0 ∨ y.2 ≠ 0 := by
        by_contra hcon
        push_neg at hcon
        exact hy0 (Prod.ext hcon.1 hcon.2)
      show dispMag (0, 0) < dispMag y
      unfold dispMag
      simp only [mul_zero, add_zero]
      rcases hne with h1 | h2
      · exact add_pos_of_pos_of_nonneg (mul_self_pos.mpr h1) (mul_self_nonneg _)
      · exact add_pos_of_nonneg_of_pos (mul_self_nonneg _) (mul_self_pos.mpr h2)

/-- The self-difference of a tile vanishes at the zero displacement. -/
theorem tileMAD_self_zero (f : Frame) (T : Nat) (t : Int × Int) :
    tileMAD f f T t (0, 0) = 0 := by
  unfold tileMAD
  simp

/-- Tile scores are sums of absolute values, hence nonnegative. -/
theorem tileMAD_nonneg (ref alt : Frame) (T : Nat) (t d : Int × Int) :
    0 ≤ tileMAD ref alt T t d :=
  Finset.sum_nonneg fun _ _ => Finset.sum_nonneg fun _ _ => abs_nonneg _

/-- Aligning one level of a frame against itself with a zero parent field
keeps the field zero. -/
theorem alignLevel_self (f : Frame) (T r : Nat) :
    alignLevel f f T r (fun _ => (0, 0)) = fun _ => (0, 0) := by
  funext t
  show selectBest (tileMAD f f T t) (window (2 * 0, 2 * 0) r) = (0, 0)
  have hc : ((2 : Int) * 0, (2 : Int) * 0) = ((0 : Int), (0 : Int)) := by norm_num
  rw [hc]
  exact selectBest_window_zero (tileMAD f f T t) r (tileMAD_self_zero f T t)
    (tileMAD_nonneg f f T t)

/-- Level recursion over pairs of identical frames keeps the zero field. -/
theorem alignLevels_self (T : Nat) (ts : List ((Frame × Frame) × Nat))
    (hself : ∀ e ∈ ts, e.1.1 = e.1.2) :
    alignLevels T ts (fun _ => (0, 0)) = fun _ => (0, 0) := by
  induction ts with
  | nil => rfl
  | cons e rest ih =>
    rcases e with ⟨⟨f, g⟩, r⟩
    have hfg : f = g := hself ((f, g), r) (List.mem_cons_self _ _)
    subst hfg
    show alignLevels T rest (alignLevel f f T r (fun _ => (0, 0))) = fun _ => (0, 0)
    rw [alignLevel_self]
    exact ih fun e he => hself e (List.mem_cons_of_mem _ he)

/-- Zipping a list with itself yields the diagonal pairs. -/
theorem zip_self_eq_map {α : Type} (l : List α) : l.zip l = l.map (fun x => (x, x)) := by
  induction l with
  | nil => rfl
  | cons a t ih => simp [ih]

/-- C7 (spec-modelled Aligner): aligning any frame against itself, for any
level count, tile size and per-level search radii, returns the exactly
zero offset field at every tile. -/
theorem align_self_returns_zero_field (F : Frame) (L T : Nat) (radii : List Nat)
    (t : Int × Int) : align F F L T radii t = (0, 0) := by
  unfold align
  have hself : ∀ e ∈ ((pyramid F L).zip (pyramid F L)).zip radii, e.1.1 = e.1.2 := by
    intro e he
    have h1 : e.1 ∈ (pyramid F L).zip (pyramid F L) := (List.of_mem_zip he).1
    rw [zip_self_eq_map] at h1
    rcases List.mem_map.mp h1 with ⟨f, -, hf⟩
    rw [← hf]
  exact congrFun (alignLevels_self T _ hself) t
